import Mathlib

/-!
Verification of the state-synchronization subsystem of `start-openclaw.sh`
(moltworker): the boot-time restore, the one-time R2 prefix migration, and
the recurring background sync loop (pull-merge, change-detect, push-mirror).

The embedding models file systems and the remote object store as association
lists from component paths to file records (modification time and content),
and each `rclone` invocation of the script as an explicit tree transformer:
`copy` is additive (destination entries absent from the source survive),
`sync` mirrors (destination entries are replaced by the source, except that
entries matched by an exclusion filter are left untouched on both sides),
`purge` deletes a prefix, and `rcat`/`cat` write and read single objects.
-/

/-- A path, as its list of slash-separated components. -/
abbrev FPath := List String

/-- A file: its modification time (seconds) and its byte content. -/
structure FileInfo where
  mtime : Nat
  content : String
deriving DecidableEq, Repr

/-- A file tree (local directory or remote key prefix) as an association
list from relative paths to files.  Later operations shadow earlier
entries via `FTree.lookup`, which returns the first match. -/
abbrev FTree := List (FPath × FileInfo)

/-- Look a path up in a tree: first matching entry wins. -/
def FTree.lookup (t : FTree) (p : FPath) : Option FileInfo :=
  match t with
  | [] => none
  | (q, f) :: rest => if q = p then some f else FTree.lookup rest p

/-- Write a file at a path, replacing any previous entry for that path. -/
def FTree.setFile (t : FTree) (q : FPath) (v : FileInfo) : FTree :=
  (q, v) :: t.filter (fun e => decide (e.1 ≠ q))

/-- Remove the entry at a path (the `mv` source after a rename). -/
def FTree.removeFile (t : FTree) (q : FPath) : FTree :=
  t.filter (fun e => decide (e.1 ≠ q))

theorem FTree.lookup_filter_ne (t : FTree) (q p : FPath) :
    FTree.lookup (t.filter (fun e => decide (e.1 ≠ q))) p =
      if p = q then none else t.lookup p := by
  induction t with
  | nil => simp [FTree.lookup]
  | cons e rest ih =>
    rcases e with ⟨a, v⟩
    by_cases haq : a = q
    · rw [List.filter_cons_of_neg (by simp [haq])]
      rw [ih]
      by_cases hpq : p = q
      · simp [hpq]
      · have hap : ¬ a = p := fun h => hpq (h ▸ haq)
        simp [FTree.lookup, hpq, hap]
    · rw [List.filter_cons_of_pos (by simp [haq])]
      by_cases hap : a = p
      · subst hap
        have hpq : ¬ a = q := haq
        simp [FTree.lookup, hpq]
      · rw [FTree.lookup, if_neg hap, ih]
        by_cases hpq : p = q
        · simp [hpq]
        · rw [if_neg hpq, if_neg hpq, FTree.lookup, if_neg hap]

theorem FTree.lookup_setFile (t : FTree) (q : FPath) (v : FileInfo) (p : FPath) :
    FTree.lookup (t.setFile q v) p = if p = q then some v else t.lookup p := by
  unfold FTree.setFile
  by_cases h : q = p
  · subst h; simp [FTree.lookup]
  · have hpq : ¬ p = q := fun hh => h hh.symm
    simp only [FTree.lookup, h, if_false]
    rw [FTree.lookup_filter_ne, if_neg hpq, if_neg hpq]

theorem FTree.lookup_removeFile (t : FTree) (q : FPath) (p : FPath) :
    FTree.lookup (t.removeFile q) p = if p = q then none else t.lookup p :=
  FTree.lookup_filter_ne t q p

/-- `rclone copy SRC DST` with exclusion filters, writing the source
subtree under the destination prefix `pre` (so `pre = []` is a plain
`rclone copy src/ dst/`).  Additive: a destination entry whose path is not
written from the source is left untouched; an excluded source entry is not
copied.  First (shadowing) source entries win, matching `FTree.lookup`. -/
def rcloneCopyInto (pre : FPath) (excl : FPath → Bool) (src dst : FTree) : FTree :=
  src.foldr (fun e acc => if excl e.1 then acc else acc.setFile (pre ++ e.1) e.2) dst

theorem lookup_rcloneCopyInto_src (pre : FPath) (excl : FPath → Bool)
    (src dst : FTree) (r : FPath) (f : FileInfo)
    (hs : src.lookup r = some f) (he : excl r = false) :
    (rcloneCopyInto pre excl src dst).lookup (pre ++ r) = some f := by
  induction src with
  | nil => simp [FTree.lookup] at hs
  | cons e rest ih =>
    rcases e with ⟨q, v⟩
    by_cases hq : q = r
    · subst hq
      simp only [FTree.lookup, if_pos rfl] at hs
      cases hs
      simp [rcloneCopyInto, he, FTree.lookup_setFile]
    · simp only [FTree.lookup, hq, if_false] at hs
      simp only [rcloneCopyInto, List.foldr]
      by_cases hx : excl q
      · simpa [hx] using ih hs
      · simp only [hx, Bool.false_eq_true, if_false]
        rw [FTree.lookup_setFile]
        have hne : pre ++ r ≠ pre ++ q := by
          intro hh
          exact hq (List.append_cancel_left hh).symm
        simpa [hne] using ih hs

theorem lookup_rcloneCopyInto_absent (pre : FPath) (excl : FPath → Bool)
    (src dst : FTree) (r : FPath) (hs : src.lookup r = none) :
    (rcloneCopyInto pre excl src dst).lookup (pre ++ r) = dst.lookup (pre ++ r) := by
  induction src with
  | nil => simp [rcloneCopyInto]
  | cons e rest ih =>
    rcases e with ⟨q, v⟩
    by_cases hq : q = r
    · subst hq; simp [FTree.lookup] at hs
    · simp only [FTree.lookup, hq, if_false] at hs
      simp only [rcloneCopyInto, List.foldr]
      by_cases hx : excl q
      · simpa [hx] using ih hs
      · simp only [hx, Bool.false_eq_true, if_false]
        rw [FTree.lookup_setFile]
        have hne : pre ++ r ≠ pre ++ q := by
          intro hh
          exact hq (List.append_cancel_left hh).symm
        simpa [hne] using ih hs

theorem lookup_rcloneCopyInto_excluded (pre : FPath) (excl : FPath → Bool)
    (src dst : FTree) (r : FPath) (he : excl r = true) :
    (rcloneCopyInto pre excl src dst).lookup (pre ++ r) = dst.lookup (pre ++ r) := by
  induction src with
  | nil => simp [rcloneCopyInto]
  | cons e rest ih =>
    rcases e with ⟨q, v⟩
    simp only [rcloneCopyInto, List.foldr]
    by_cases hx : excl q
    · simpa [hx] using ih
    · simp only [hx, Bool.false_eq_true, if_false]
      rw [FTree.lookup_setFile]
      have hne : pre ++ r ≠ pre ++ q := by
        intro hh
        have : q = r := (List.append_cancel_left hh).symm
        subst this
        rw [he] at hx
        exact hx rfl
      simpa [hne] using ih

theorem lookup_rcloneCopyInto_outside (pre : FPath) (excl : FPath → Bool)
    (src dst : FTree) (p : FPath) (hp : ¬ pre <+: p) :
    (rcloneCopyInto pre excl src dst).lookup p = dst.lookup p := by
  induction src with
  | nil => simp [rcloneCopyInto]
  | cons e rest ih =>
    rcases e with ⟨q, v⟩
    simp only [rcloneCopyInto, List.foldr]
    by_cases hx : excl q
    · simpa [hx] using ih
    · simp only [hx, Bool.false_eq_true, if_false]
      rw [FTree.lookup_setFile]
      have hne : p ≠ pre ++ q := by
        intro hh
        exact hp ⟨q, hh.symm⟩
      simpa [hne] using ih

theorem FTree.lookup_append (a b : FTree) (p : FPath) :
    FTree.lookup (a ++ b) p =
      match a.lookup p with
      | some f => some f
      | none => b.lookup p := by
  induction a with
  | nil => simp [FTree.lookup]
  | cons e rest ih =>
    rcases e with ⟨q, v⟩
    by_cases hq : q = p
    · simp [FTree.lookup, hq]
    · simp [FTree.lookup, hq, ih]

theorem FTree.lookup_append_some (a b : FTree) (p : FPath) (f : FileInfo)
    (h : a.lookup p = some f) : FTree.lookup (a ++ b) p = some f := by
  rw [FTree.lookup_append, h]

theorem FTree.lookup_append_none (a b : FTree) (p : FPath)
    (h : a.lookup p = none) : FTree.lookup (a ++ b) p = b.lookup p := by
  rw [FTree.lookup_append, h]

theorem FTree.lookup_filter_key (t : FTree) (P : FPath → Bool) (p : FPath) :
    FTree.lookup (t.filter (fun e => P e.1)) p =
      if P p then t.lookup p else none := by
  induction t with
  | nil => simp [FTree.lookup]
  | cons e rest ih =>
    rcases e with ⟨q, v⟩
    by_cases hq : q = p
    · subst hq
      by_cases hP : P q
      · rw [List.filter_cons_of_pos (by simpa using hP)]
        simp [FTree.lookup, hP]
      · rw [List.filter_cons_of_neg (by simpa using hP)]
        simp [FTree.lookup, hP, ih]
    · by_cases hP : P q
      · rw [List.filter_cons_of_pos (by simpa using hP)]
        simp only [FTree.lookup, hq, if_false]
        exact ih
      · rw [List.filter_cons_of_neg (by simpa using hP)]
        rw [ih]
        by_cases hPp : P p
      
        · simp [hPp, FTree.lookup, hq]
        · simp [hPp]

/-- `k` lies strictly under the remote key prefix `pre` (so the object is
inside the directory-like prefix, not the prefix name itself). -/
def underPre (pre : FPath) (k : FPath) : Bool :=
  pre.isPrefixOf k && decide (pre.length < k.length)

theorem underPre_append (pre r : FPath) (hr : r ≠ []) :
    underPre pre (pre ++ r) = true := by
  unfold underPre
  have h1 : pre.isPrefixOf (pre ++ r) = true := by
    rw [List.isPrefixOf_iff_prefix]
    exact ⟨r, rfl⟩
  rw [h1]
  simp only [Bool.true_and, decide_eq_true_eq, List.length_append]
  have : 0 < r.length := List.length_pos.mpr hr
  omega

theorem underPre_outside (pre k : FPath) (hk : ¬ pre <+: k) :
    underPre pre k = false := by
  unfold underPre
  have h1 : pre.isPrefixOf k = false := by
    rw [Bool.eq_false_iff]
    intro h
    exact hk (List.isPrefixOf_iff_prefix.mp h)
  rw [h1]
  simp

/-- `rclone sync LOCAL r2:...` onto the remote prefix `pre` with exclusion
filters: a mirroring one-way sync.  Remote objects strictly under `pre`
whose relative path is not excluded are replaced by exactly the
non-excluded source entries (so deletions propagate); excluded paths are
neither copied nor deleted; objects outside `pre` are untouched. -/
def rcloneSyncAt (pre : FPath) (excl : FPath → Bool) (src remote : FTree) : FTree :=
  (src.filter (fun e => !excl e.1)).map (fun e => (pre ++ e.1, e.2))
    ++ remote.filter (fun e => !(underPre pre e.1 && !excl (e.1.drop pre.length)))

theorem lookup_mirror_part (pre : FPath) (excl : FPath → Bool) (src : FTree) (r : FPath) :
    FTree.lookup ((src.filter (fun e => !excl e.1)).map (fun e => (pre ++ e.1, e.2)))
        (pre ++ r) =
      if excl r then none else src.lookup r := by
  induction src with
  | nil => simp [FTree.lookup]
  | cons e rest ih =>
    rcases e with ⟨q, v⟩
    by_cases hx : excl q
    · rw [List.filter_cons_of_neg (by simpa using hx)]
      rw [ih]
      by_cases hqr : q = r
      · subst hqr
        simp [FTree.lookup, hx]
      · by_cases hr : excl r
        · simp [hr]
        · simp [hr, FTree.lookup, hqr]
    · rw [List.filter_cons_of_pos (by simpa using hx)]
      simp only [List.map]
      by_cases hqr : q = r
      · subst hqr
        simp [FTree.lookup, hx]
      · have hne : ¬ (pre ++ q = pre ++ r) := fun h => hqr (List.append_cancel_left h)
        simp only [FTree.lookup, hne, if_false]
        rw [ih]
        by_cases hr : excl r
        · simp [hr]
        · simp [hr, FTree.lookup, hqr]

theorem lookup_rcloneSyncAt_inside (pre : FPath) (excl : FPath → Bool)
    (src remote : FTree) (r : FPath) (hr : r ≠ []) (he : excl r = false) :
    (rcloneSyncAt pre excl src remote).lookup (pre ++ r) = src.lookup r := by
  unfold rcloneSyncAt
  cases hs : src.lookup r with
  | some f =>
    have hm : FTree.lookup
        ((src.filter (fun e => !excl e.1)).map (fun e => (pre ++ e.1, e.2)))
        (pre ++ r) = some f := by
      rw [lookup_mirror_part]; simp [he, hs]
    rw [FTree.lookup_append_some _ _ _ _ hm]
  | none =>
    have hm : FTree.lookup
        ((src.filter (fun e => !excl e.1)).map (fun e => (pre ++ e.1, e.2)))
        (pre ++ r) = none := by
      rw [lookup_mirror_part]; simp [he, hs]
    rw [FTree.lookup_append_none _ _ _ hm]
    rw [FTree.lookup_filter_key remote
      (fun k => !(underPre pre k && !excl (List.drop pre.length k)))]
    rw [underPre_append pre r hr]
    simp [List.drop_left, he]

theorem lookup_rcloneSyncAt_excluded (pre : FPath) (excl : FPath → Bool)
    (src remote : FTree) (r : FPath) (he : excl r = true) :
    (rcloneSyncAt pre excl src remote).lookup (pre ++ r) = remote.lookup (pre ++ r) := by
  unfold rcloneSyncAt
  have hm : FTree.lookup
      ((src.filter (fun e => !excl e.1)).map (fun e => (pre ++ e.1, e.2)))
      (pre ++ r) = none := by
    rw [lookup_mirror_part]; simp [he]
  rw [FTree.lookup_append_none _ _ _ hm]
  rw [FTree.lookup_filter_key remote
    (fun k => !(underPre pre k && !excl (List.drop pre.length k)))]
  by_cases hu : underPre pre (pre ++ r)
  · rw [hu]
    simp [List.drop_left, he]
  · simp only [Bool.not_eq_true] at hu
    rw [hu]
    simp

theorem lookup_rcloneSyncAt_outside (pre : FPath) (excl : FPath → Bool)
    (src remote : FTree) (k : FPath) (hk : ¬ pre <+: k) :
    (rcloneSyncAt pre excl src remote).lookup k = remote.lookup k := by
  unfold rcloneSyncAt
  have hmap : FTree.lookup
      ((src.filter (fun e => !excl e.1)).map (fun e => (pre ++ e.1, e.2))) k = none := by
    induction src with
    | nil => simp [FTree.lookup]
    | cons e rest ih =>
      rcases e with ⟨q, v⟩
      by_cases hx : excl q
      · rw [List.filter_cons_of_neg (by simpa using hx)]
        exact ih
      · rw [List.filter_cons_of_pos (by simpa using hx)]
        simp only [List.map]
        have hne : ¬ (pre ++ q = k) := fun h => hk ⟨q, h⟩
        simp only [FTree.lookup, hne, if_false]
        exact ih
  rw [FTree.lookup_append_none _ _ _ hmap]
  rw [FTree.lookup_filter_key remote
    (fun k => !(underPre pre k && !excl (List.drop pre.length k)))]
  rw [underPre_outside pre k hk]
  simp

/-- `rclone purge r2:.../PRE/`: delete every object strictly under `pre`. -/
def rclonePurge (pre : FPath) (t : FTree) : FTree :=
  t.filter (fun e => !underPre pre e.1)

theorem lookup_rclonePurge (pre : FPath) (t : FTree) (p : FPath) :
    (rclonePurge pre t).lookup p = if underPre pre p then none else t.lookup p := by
  unfold rclonePurge
  rw [FTree.lookup_filter_key t (fun k => !underPre pre k)]
  by_cases hu : underPre pre p
  · simp [hu]
  · simp only [Bool.not_eq_true] at hu
    simp [hu]

/-- The objects strictly under a remote prefix, re-keyed relative to it. -/
def subtreeOf (pre : FPath) (t : FTree) : FTree :=
  t.filterMap (fun e =>
    if underPre pre e.1 then some (e.1.drop pre.length, e.2) else none)

theorem lookup_subtreeOf (pre : FPath) (t : FTree) (r : FPath) (hr : r ≠ []) :
    (subtreeOf pre t).lookup r = t.lookup (pre ++ r) := by
  induction t with
  | nil => simp [subtreeOf, FTree.lookup]
  | cons e rest ih =>
    rcases e with ⟨k, v⟩
    by_cases hu : underPre pre k
    · have hpre : pre <+: k := by
        have := hu
        unfold underPre at this
        simp only [Bool.and_eq_true, decide_eq_true_eq] at this
        exact List.isPrefixOf_iff_prefix.mp this.1
      rcases hpre with ⟨s, hs⟩
      subst hs
      have hdrop : (pre ++ s).drop pre.length = s := List.drop_left pre s
      simp only [subtreeOf, List.filterMap_cons, hu, if_true, hdrop]
      by_cases hsr : s = r
      · subst hsr
        simp [FTree.lookup]
      · have hne : ¬ (pre ++ s = pre ++ r) := fun h => hsr (List.append_cancel_left h)
        simp only [FTree.lookup, hsr, hne, if_false]
        exact ih
    · simp only [subtreeOf, List.filterMap_cons, hu]
      simp only [Bool.false_eq_true, if_false]
      have hne : ¬ (k = pre ++ r) := by
        intro h
        subst h
        rw [underPre_append pre r hr] at hu
        exact hu rfl
      simp only [FTree.lookup, hne, if_false]
      exact ih

/-!
## MigrationRunner

`start-openclaw.sh` lines 102-115.  The remote store is one `FTree` keyed
from the bucket root.  The marker check is
`rclone cat r2:BUCKET/openclaw/.migrated-prefixes | grep -q migrated`; the
relocation block is four `rclone` calls each suffixed `|| true` (failures
are swallowed) followed unconditionally by
`echo "migrated $(date -Iseconds)" | rclone rcat r2:BUCKET/openclaw/.migrated-prefixes`.
A failing step is modelled as leaving the store unchanged (`|| true` and
`2>/dev/null` discard both the exit status and the error output).
-/

/-- The remote key of the migration completion marker object. -/
def migMarkerKey : FPath := ["openclaw", ".migrated-prefixes"]

/-- `grep -q migrated` on the marker payload: the completion tag is the
substring `migrated` anywhere in the payload. -/
def hasMigratedTag (payload : String) : Bool :=
  decide ("migrated".toList <:+: payload.toList)

/-- The marker check of line 104: the marker object exists and its payload
contains the completion tag. -/
def markerDone (s : FTree) : Bool :=
  match s.lookup migMarkerKey with
  | some f => hasMigratedTag f.content
  | none => false

/-- `rclone copy r2:.../SRCPRE/ r2:.../DSTPRE/`: server-side additive copy
of one remote prefix onto another (lines 108-109). -/
def rclonePrefixCopy (srcPre dstPre : FPath) (s : FTree) : FTree :=
  rcloneCopyInto dstPre (fun _ => false) (subtreeOf srcPre s) s

/-- One step of the migration block, in source order. -/
inductive MigOp where
  | copyWs
  | copySk
  | purgeWs
  | purgeSk
  | writeMarker
deriving DecidableEq, Repr

/-- The steps of lines 108-112, in the order the script runs them. -/
def migSteps : List MigOp := [.copyWs, .copySk, .purgeWs, .purgeSk, .writeMarker]

/-- Apply one migration step; a failed step leaves the remote store
unchanged (`|| true` swallows copy/purge failures; a failed `rcat` writes
nothing). -/
def applyMigOp (fail : MigOp → Bool) (ts : String) (s : FTree) (op : MigOp) : FTree :=
  if fail op then s else
  match op with
  | .copyWs => rclonePrefixCopy ["workspace"] ["openclaw", "workspace"] s
  | .copySk => rclonePrefixCopy ["skills"] ["openclaw", "skills"] s
  | .purgeWs => rclonePurge ["workspace"] s
  | .purgeSk => rclonePurge ["skills"] s
  | .writeMarker => s.setFile migMarkerKey ⟨0, "migrated " ++ ts⟩

/-- One invocation of the MigrationRunner (lines 104-115): if the marker
check passes the block is skipped entirely; otherwise every step is
attempted in order.  Returns the final remote store and the list of
attempted remote operations. -/
def migrationRun (fail : MigOp → Bool) (ts : String) (s : FTree) : FTree × List MigOp :=
  if markerDone s then (s, [])
  else (migSteps.foldl (applyMigOp fail ts) s, migSteps)

/-- A run with every remote operation succeeding. -/
def migNoFail : MigOp → Bool := fun _ => false

theorem hasMigratedTag_write (ts : String) :
    hasMigratedTag ("migrated " ++ ts) = true := by
  unfold hasMigratedTag
  rw [decide_eq_true_eq]
  have h1 : "migrated".toList <+: "migrated ".toList := by decide
  have h2 : ("migrated " ++ ts).toList = "migrated ".toList ++ ts.toList := by
    simp [String.toList, String.data_append]
  rw [h2]
  exact (h1.trans (List.prefix_append _ _)).isInfix

theorem applyMigOp_marker_lookup (fail : MigOp → Bool) (ts : String) (s : FTree)
    (op : MigOp) (hop : op ≠ MigOp.writeMarker) :
    (applyMigOp fail ts s op).lookup migMarkerKey = s.lookup migMarkerKey := by
  unfold applyMigOp
  by_cases hf : fail op
  · simp [hf]
  · simp only [hf, Bool.false_eq_true, if_false]
    cases op with
    | copyWs =>
      unfold rclonePrefixCopy
      exact lookup_rcloneCopyInto_outside _ _ _ _ _ (by decide)
    | copySk =>
      unfold rclonePrefixCopy
      exact lookup_rcloneCopyInto_outside _ _ _ _ _ (by decide)
    | purgeWs =>
      rw [lookup_rclonePurge]
      simp [show underPre ["workspace"] migMarkerKey = false by decide]
    | purgeSk =>
      rw [lookup_rclonePurge]
      simp [show underPre ["skills"] migMarkerKey = false by decide]
    | writeMarker => exact absurd rfl hop

theorem markerDone_setFile_marker (t : FTree) (v : FileInfo) :
    markerDone (t.setFile migMarkerKey v) = hasMigratedTag v.content := by
  unfold markerDone
  rw [FTree.lookup_setFile]
  simp

theorem migrationRun_skip (fail : MigOp → Bool) (ts : String) (s : FTree)
    (h : markerDone s = true) : migrationRun fail ts s = (s, []) := by
  unfold migrationRun
  rw [h]
  simp

theorem migrationRun_not_done (fail : MigOp → Bool) (ts : String) (s : FTree)
    (h : markerDone s = false) :
    migrationRun fail ts s = (migSteps.foldl (applyMigOp fail ts) s, migSteps) := by
  unfold migrationRun
  rw [h]
  simp

theorem markerDone_migrationRun (fail : MigOp → Bool) (ts : String) (s : FTree)
    (h : markerDone s = false) (hw : fail MigOp.writeMarker = false) :
    markerDone (migrationRun fail ts s).1 = true := by
  rw [migrationRun_not_done fail ts s h]
  simp only [migSteps, List.foldl]
  have hlast : ∀ x : FTree, applyMigOp fail ts x MigOp.writeMarker
      = x.setFile migMarkerKey ⟨0, "migrated " ++ ts⟩ := by
    intro x
    unfold applyMigOp
    rw [hw]
    simp
  rw [hlast, markerDone_setFile_marker, hasMigratedTag_write]

theorem marker_lookup_migrationRun_rcat_failed (fail : MigOp → Bool) (ts : String)
    (s : FTree) (h : markerDone s = false) (hw : fail MigOp.writeMarker = true) :
    (migrationRun fail ts s).1.lookup migMarkerKey = s.lookup migMarkerKey := by
  rw [migrationRun_not_done fail ts s h]
  simp only [migSteps, List.foldl]
  have hlast : ∀ x : FTree, applyMigOp fail ts x MigOp.writeMarker = x := by
    intro x
    unfold applyMigOp
    rw [hw]
    simp
  rw [hlast]
  rw [applyMigOp_marker_lookup fail ts _ MigOp.purgeSk (by decide)]
  rw [applyMigOp_marker_lookup fail ts _ MigOp.purgeWs (by decide)]
  rw [applyMigOp_marker_lookup fail ts _ MigOp.copySk (by decide)]
  rw [applyMigOp_marker_lookup fail ts _ MigOp.copyWs (by decide)]

/-- The store of the MigrationRunner counterexample: one legacy workspace
object, no marker. -/
def migCexStore : FTree := [(["workspace", "f.txt"], ⟨1, "data"⟩)]

/-- Failure pattern in which the legacy-workspace copy step fails. -/
def migCexFail : MigOp → Bool := fun op => decide (op = MigOp.copyWs)

/-- C1 counterexample: in a run where the workspace-copy relocation step
fails (and the marker was absent), the MigrationMarker IS still written —
the `|| true` suffixes swallow copy/purge failures, and the `rclone rcat`
marker write runs unconditionally afterwards. -/
theorem claim_C1_counterexample :
    migCexFail MigOp.copyWs = true ∧
    markerDone migCexStore = false ∧
    markerDone (migrationRun migCexFail "2024-01-01T00:00:00Z" migCexStore).1 = true := by
  refine ⟨by decide, by decide, ?_⟩
  exact markerDone_migrationRun migCexFail _ migCexStore (by decide) (by decide)

/-- C1 (amended): a failure of a copy or purge relocation step does not
prevent the MigrationMarker write — the marker is written whenever the
marker-write step itself succeeds; only when the marker write itself fails
is the marker object left unchanged, so only then does a subsequent
invocation retry the relocation. -/
theorem claim_C1_amended (fail : MigOp → Bool) (ts : String) (s : FTree)
    (h : markerDone s = false) :
    (fail MigOp.writeMarker = false → markerDone (migrationRun fail ts s).1 = true) ∧
    (fail MigOp.writeMarker = true →
      (migrationRun fail ts s).1.lookup migMarkerKey = s.lookup migMarkerKey) :=
  ⟨fun hw => markerDone_migrationRun fail ts s h hw,
   fun hw => marker_lookup_migrationRun_rcat_failed fail ts s h hw⟩

/-- Failure pattern in which only the marker write (`rclone rcat`) fails. -/
def migRcatFail : MigOp → Bool := fun op => decide (op = MigOp.writeMarker)

theorem claim_C1_amended_witness :
    markerDone migCexStore = false ∧
    ((migCexFail MigOp.writeMarker = false →
        markerDone (migrationRun migCexFail "T" migCexStore).1 = true) ∧
      (migCexFail MigOp.writeMarker = true →
        (migrationRun migCexFail "T" migCexStore).1.lookup migMarkerKey
          = migCexStore.lookup migMarkerKey)) ∧
    ((migRcatFail MigOp.writeMarker = false →
        markerDone (migrationRun migRcatFail "T" migCexStore).1 = true) ∧
      (migRcatFail MigOp.writeMarker = true →
        (migrationRun migRcatFail "T" migCexStore).1.lookup migMarkerKey
          = migCexStore.lookup migMarkerKey)) :=
  ⟨by decide,
   claim_C1_amended migCexFail "T" migCexStore (by decide),
   claim_C1_amended migRcatFail "T" migCexStore (by decide)⟩

/-- C2: when the MigrationMarker object exists remotely and its payload
contains the completion tag, a MigrationRunner invocation performs zero
remote-store mutations: the remote store is returned unchanged and the
list of attempted remote operations is empty (no copy, no purge, no
marker write). -/
theorem claim_C2_marker_noop (fail : MigOp → Bool) (ts : String) (s : FTree)
    (h : markerDone s = true) :
    migrationRun fail ts s = (s, []) :=
  migrationRun_skip fail ts s h

/-- A store whose marker object carries the completion tag. -/
def migDoneStore : FTree :=
  [(migMarkerKey, ⟨5, "migrated 2024-01-01T00:00:00Z"⟩),
   (["workspace", "f.txt"], ⟨1, "data"⟩)]

theorem claim_C2_marker_noop_witness :
    markerDone migDoneStore = true ∧
    migrationRun migNoFail "T" migDoneStore = (migDoneStore, []) :=
  ⟨by decide, claim_C2_marker_noop migNoFail "T" migDoneStore (by decide)⟩

theorem applyMigOp_noFail (ts : String) (x : FTree) (op : MigOp) :
    applyMigOp migNoFail ts x op =
      match op with
      | .copyWs => rclonePrefixCopy ["workspace"] ["openclaw", "workspace"] x
      | .copySk => rclonePrefixCopy ["skills"] ["openclaw", "skills"] x
      | .purgeWs => rclonePurge ["workspace"] x
      | .purgeSk => rclonePurge ["skills"] x
      | .writeMarker => x.setFile migMarkerKey ⟨0, "migrated " ++ ts⟩ := by
  simp [applyMigOp, migNoFail]

theorem migration_relocates_ws (ts : String) (s : FTree) (r : FPath)
    (h : markerDone s = false) (hr : r ≠ []) :
    (∀ f, s.lookup ("workspace" :: r) = some f →
      (migrationRun migNoFail ts s).1.lookup ("openclaw" :: "workspace" :: r) = some f) ∧
    (migrationRun migNoFail ts s).1.lookup ("workspace" :: r) = none := by
  rw [migrationRun_not_done migNoFail ts s h]
  simp only [migSteps, List.foldl, applyMigOp_noFail]
  set s1 := rclonePrefixCopy ["workspace"] ["openclaw", "workspace"] s with hs1
  set s2 := rclonePrefixCopy ["skills"] ["openclaw", "skills"] s1 with hs2
  set s3 := rclonePurge ["workspace"] s2 with hs3
  set s4 := rclonePurge ["skills"] s3 with hs4
  have hnoexcl : ∀ p : FPath, (fun _ : FPath => false) p = false := fun _ => rfl
  constructor
  · intro f hf
    have h1 : s1.lookup ("openclaw" :: "workspace" :: r) = some f := by
      rw [hs1]
      unfold rclonePrefixCopy
      have hsrc : (subtreeOf ["workspace"] s).lookup r = some f := by
        rw [lookup_subtreeOf _ _ _ hr]
        exact hf
      exact lookup_rcloneCopyInto_src _ _ _ _ _ _ hsrc rfl
    have h2 : s2.lookup ("openclaw" :: "workspace" :: r) = some f := by
      rw [hs2]
      unfold rclonePrefixCopy
      rw [lookup_rcloneCopyInto_outside _ _ _ _ _ (by rintro ⟨t, ht⟩; simp at ht)]
      exact h1
    have h3 : s3.lookup ("openclaw" :: "workspace" :: r) = some f := by
      rw [hs3, lookup_rclonePurge,
        underPre_outside _ _ (by rintro ⟨t, ht⟩; simp at ht)]
      simpa using h2
    have h4 : s4.lookup ("openclaw" :: "workspace" :: r) = some f := by
      rw [hs4, lookup_rclonePurge,
        underPre_outside _ _ (by rintro ⟨t, ht⟩; simp at ht)]
      simpa using h3
    rw [FTree.lookup_setFile]
    rw [if_neg (by intro hh; simp [migMarkerKey] at hh)]
    exact h4
  · have h3 : s3.lookup ("workspace" :: r) = none := by
      rw [hs3, lookup_rclonePurge]
      rw [show ("workspace" :: r : FPath) = ["workspace"] ++ r from rfl,
        underPre_append _ _ hr]
      simp
    have h4 : s4.lookup ("workspace" :: r) = none := by
      rw [hs4, lookup_rclonePurge]
      by_cases hu : underPre ["skills"] ("workspace" :: r)
      · simp [hu]
      · simp only [Bool.not_eq_true] at hu
        simp [hu, h3]
    rw [FTree.lookup_setFile]
    rw [if_neg (by intro hh; simp [migMarkerKey] at hh)]
    exact h4

theorem migration_relocates_sk (ts : String) (s : FTree) (r : FPath)
    (h : markerDone s = false) (hr : r ≠ []) :
    (∀ f, s.lookup ("skills" :: r) = some f →
      (migrationRun migNoFail ts s).1.lookup ("openclaw" :: "skills" :: r) = some f) ∧
    (migrationRun migNoFail ts s).1.lookup ("skills" :: r) = none := by
  rw [migrationRun_not_done migNoFail ts s h]
  simp only [migSteps, List.foldl, applyMigOp_noFail]
  set s1 := rclonePrefixCopy ["workspace"] ["openclaw", "workspace"] s with hs1
  set s2 := rclonePrefixCopy ["skills"] ["openclaw", "skills"] s1 with hs2
  set s3 := rclonePurge ["workspace"] s2 with hs3
  set s4 := rclonePurge ["skills"] s3 with hs4
  constructor
  · intro f hf
    have h1 : s1.lookup ("skills" :: r) = some f := by
      rw [hs1]
      unfold rclonePrefixCopy
      rw [lookup_rcloneCopyInto_outside _ _ _ _ _ (by rintro ⟨t, ht⟩; simp at ht)]
      exact hf
    have h2 : s2.lookup ("openclaw" :: "skills" :: r) = some f := by
      rw [hs2]
      unfold rclonePrefixCopy
      have hsrc : (subtreeOf ["skills"] s1).lookup r = some f := by
        rw [lookup_subtreeOf _ _ _ hr]
        exact h1
      exact lookup_rcloneCopyInto_src _ _ _ _ _ _ hsrc rfl
    have h3 : s3.lookup ("openclaw" :: "skills" :: r) = some f := by
      rw [hs3, lookup_rclonePurge,
        underPre_outside _ _ (by rintro ⟨t, ht⟩; simp at ht)]
      simpa using h2
    have h4 : s4.lookup ("openclaw" :: "skills" :: r) = some f := by
      rw [hs4, lookup_rclonePurge,
        underPre_outside _ _ (by rintro ⟨t, ht⟩; simp at ht)]
      simpa using h3
    rw [FTree.lookup_setFile]
    rw [if_neg (by intro hh; simp [migMarkerKey] at hh)]
    exact h4
  · have h4 : s4.lookup ("skills" :: r) = none := by
      rw [hs4, lookup_rclonePurge]
      rw [show ("skills" :: r : FPath) = ["skills"] ++ r from rfl,
        underPre_append _ _ hr]
      simp
    rw [FTree.lookup_setFile]
    rw [if_neg (by intro hh; simp [migMarkerKey] at hh)]
    exact h4

/-- C3: running the MigrationRunner twice in sequence produces the same
final remote state as running it once (a second run after a successful
run is a no-op, since the first run ends by writing the tagged marker);
within a run the attempted steps are either none (marker short-circuit)
or exactly the source's list, in which each legacy prefix's copy precedes
its purge and the marker write comes after both relocations; and a
successful run from a marker-absent store copies each legacy prefix's
full contents to its nested prefix and empties the legacy prefix. -/
theorem claim_C3_idempotent_relocation :
    (∀ ts1 ts2 s, migrationRun migNoFail ts2 (migrationRun migNoFail ts1 s).1
      = ((migrationRun migNoFail ts1 s).1, [])) ∧
    (∀ fail ts s, (migrationRun fail ts s).2 = []
      ∨ (migrationRun fail ts s).2 = migSteps) ∧
    (migSteps.indexOf MigOp.copyWs < migSteps.indexOf MigOp.purgeWs ∧
      migSteps.indexOf MigOp.copySk < migSteps.indexOf MigOp.purgeSk ∧
      migSteps.indexOf MigOp.purgeWs < migSteps.indexOf MigOp.writeMarker ∧
      migSteps.indexOf MigOp.purgeSk < migSteps.indexOf MigOp.writeMarker) ∧
    (∀ ts s r, markerDone s = false → r ≠ [] →
      (∀ f, s.lookup ("workspace" :: r) = some f →
        (migrationRun migNoFail ts s).1.lookup ("openclaw" :: "workspace" :: r) = some f) ∧
      (migrationRun migNoFail ts s).1.lookup ("workspace" :: r) = none) ∧
    (∀ ts s r, markerDone s = false → r ≠ [] →
      (∀ f, s.lookup ("skills" :: r) = some f →
        (migrationRun migNoFail ts s).1.lookup ("openclaw" :: "skills" :: r) = some f) ∧
      (migrationRun migNoFail ts s).1.lookup ("skills" :: r) = none) := by
  refine ⟨?_, ?_, by decide, ?_, ?_⟩
  · intro ts1 ts2 s
    apply migrationRun_skip
    by_cases h : markerDone s
    · rw [migrationRun_skip migNoFail ts1 s h]
      exact h
    · simp only [Bool.not_eq_true] at h
      exact markerDone_migrationRun migNoFail ts1 s h rfl
  · intro fail ts s
    by_cases h : markerDone s
    · left; rw [migrationRun_skip fail ts s h]
    · right
      simp only [Bool.not_eq_true] at h
      rw [migrationRun_not_done fail ts s h]
  · intro ts s r h hr
    exact migration_relocates_ws ts s r h hr
  · intro ts s r h hr
    exact migration_relocates_sk ts s r h hr

theorem claim_C3_idempotent_relocation_witness :
    markerDone migCexStore = false ∧ (["f.txt"] : FPath) ≠ [] ∧
    migCexStore.lookup ["workspace", "f.txt"] = some ⟨1, "data"⟩ ∧
    (migrationRun migNoFail "T" migCexStore).1.lookup ["openclaw", "workspace", "f.txt"]
      = some ⟨1, "data"⟩ ∧
    (migrationRun migNoFail "T" migCexStore).1.lookup ["workspace", "f.txt"] = none :=
  ⟨by decide, by decide, by decide,
    (claim_C3_idempotent_relocation.2.2.2.1 "T" migCexStore ["f.txt"]
      (by decide) (by decide)).1 _ (by decide),
    (claim_C3_idempotent_relocation.2.2.2.1 "T" migCexStore ["f.txt"]
      (by decide) (by decide)).2⟩

/-!
## Background sync loop

`start-openclaw.sh` lines 344-401.  Every cycle: sleep, pull workspace and
skills (additive `rclone copy`, remote to local), detect changes with two
`find ... -newer MARKER` runs (config dir unfiltered; workspace dir
filtered through `-not -path` for `node_modules` and `.git`), and if the
combined line count is positive, mirror (`rclone sync`) the config dir,
workspace dir and skills dir to their remote prefixes, write the
last-sync record and touch the marker.

Paths are relative to their tree roots; the remote store is one `FTree`
keyed relative to `r2:BUCKET/openclaw/`.  The local skills directory
`/root/clawd/skills` is the `skills` subtree of the workspace tree
`/root/clawd`.

An rclone exclusion glob with no leading slash matches at the end of the
path at any component boundary: `X/**` matches every file lying below a
directory component named `X`, and `*.lock` matches every file whose last
component ends in `.lock`.  A `find` pattern `*/X/*` likewise matches
files below a component named `X` (the roots are absolute, so the leading
`*/` always matches).
-/

/-- The last path component ends with the given suffix (rclone glob
`*.suf`). -/
def lastEndsWith (suf : String) (p : FPath) : Bool :=
  match p.getLast? with
  | some c => suf.toList.isSuffixOf c.toList
  | none => false

/-- `--exclude='skills/**' --exclude='.git/**' --exclude='node_modules/**'`
of the workspace pull (line 363) and workspace push (line 388). -/
def wsPullExcl (p : FPath) : Bool :=
  p.dropLast.contains "skills" || p.dropLast.contains ".git"
    || p.dropLast.contains "node_modules"

/-- The `find "$WORKSPACE_DIR" -newer ... -not -path` filters of lines
374-376: files below a `node_modules` or `.git` component are skipped. -/
def wsFindExcl (p : FPath) : Bool :=
  p.dropLast.contains "node_modules" || p.dropLast.contains ".git"

/-- `--exclude='*.lock' --exclude='*.log' --exclude='*.tmp'
--exclude='.git/**' --exclude='workspace/**' --exclude='skills/**'` of the
config-root mirror (line 385). -/
def configPushExcl (p : FPath) : Bool :=
  lastEndsWith ".lock" p || lastEndsWith ".log" p || lastEndsWith ".tmp" p
    || p.dropLast.contains ".git" || p.dropLast.contains "workspace"
    || p.dropLast.contains "skills"

/-- One remote operation attempted by a sync cycle, in source order. -/
inductive SyncOp where
  | pullWs
  | pullSkills
  | detect
  | pushConfig
  | pushWs
  | pushSkills
  | writeLastSync
  | touchMarker
deriving DecidableEq, Repr

/-- The state a sync cycle acts on: the marker watermark, the config and
workspace trees (the skills dir is the `skills` subtree of the workspace
tree), whether the two optional directories exist, the remote store keyed
relative to `openclaw/`, the last-sync record and the current time. -/
structure SyncState where
  marker : Nat
  cfg : FTree
  ws : FTree
  wsDirExists : Bool
  skillsDirExists : Bool
  remote : FTree
  lastSync : Option Nat
  now : Nat
deriving Repr

/-- Which of the five remote transfers of a cycle fail; the script
discards every exit status, so failures only mean the transfer had no
effect. -/
structure CycleFails where
  pullWs : Bool
  pullSk : Bool
  pushCfg : Bool
  pushWs : Bool
  pushSk : Bool

/-- A cycle with every transfer succeeding. -/
def cycleNoFail : CycleFails := ⟨false, false, false, false, false⟩

/-- Line 362: `rclone copy r2:.../openclaw/workspace/ $WORKSPACE_DIR/`
with the workspace excludes. -/
def pullWsStep (remote ws : FTree) : FTree :=
  rcloneCopyInto [] wsPullExcl (subtreeOf ["workspace"] remote) ws

/-- Line 366: `rclone copy r2:.../openclaw/skills/ $SKILLS_DIR/` (no
excludes); the skills dir is the `skills` subtree of the workspace. -/
def pullSkillsStep (remote ws : FTree) : FTree :=
  rcloneCopyInto ["skills"] (fun _ => false) (subtreeOf ["skills"] remote) ws

/-- The pull half of a cycle (lines 361-368): each copy runs only if its
directory exists, and a failed copy has no effect. -/
def pullPhase (f : CycleFails) (st : SyncState) : SyncState :=
  let ws1 := if st.wsDirExists && !f.pullWs then pullWsStep st.remote st.ws else st.ws
  let ws2 := if st.skillsDirExists && !f.pullSk then pullSkillsStep st.remote ws1 else ws1
  { st with ws := ws2 }

/-- `find "$CONFIG_DIR" -newer "$MARKER" -type f` (line 373): every config
file strictly newer than the marker, no exclusions. -/
def changedConfigFiles (marker : Nat) (cfg : FTree) : List FPath :=
  (cfg.filter (fun e => decide (marker < e.2.mtime))).map Prod.fst

/-- `find "$WORKSPACE_DIR" -newer "$MARKER" -not -path ... -type f`
(lines 374-377). -/
def changedWsFiles (marker : Nat) (ws : FTree) : List FPath :=
  (ws.filter (fun e => decide (marker < e.2.mtime) && !wsFindExcl e.1)).map Prod.fst

/-- The combined change list written to `/tmp/.changed-files` (lines
371-378); the workspace `find` contributes nothing when the directory
does not exist. -/
def changedFiles (st : SyncState) : List FPath :=
  changedConfigFiles st.marker st.cfg
    ++ (if st.wsDirExists then changedWsFiles st.marker st.ws else [])

/-- Line 384: `rclone sync "$CONFIG_DIR/" r2:.../openclaw/` with the
config-root excludes. -/
def pushConfigStep (cfg remote : FTree) : FTree :=
  rcloneSyncAt [] configPushExcl cfg remote

/-- Line 387: `rclone sync "$WORKSPACE_DIR/" r2:.../openclaw/workspace/`
with the workspace excludes. -/
def pushWsStep (ws remote : FTree) : FTree :=
  rcloneSyncAt ["workspace"] wsPullExcl ws remote

/-- Line 391: `rclone sync "$SKILLS_DIR/" r2:.../openclaw/skills/` with no
excludes. -/
def pushSkillsStep (ws remote : FTree) : FTree :=
  rcloneSyncAt ["skills"] (fun _ => false) (subtreeOf ["skills"] ws) remote

/-- One iteration of the `while true` loop body (lines 354-398): pull,
detect, and — only when the change count is positive — push all three
mirrors in order, write the last-sync record and touch the marker.
Returns the new state and the attempted operations in order. -/
def syncCycle (f : CycleFails) (st : SyncState) : SyncState × List SyncOp :=
  let st1 := pullPhase f st
  let pullOps := (if st.wsDirExists then [SyncOp.pullWs] else [])
    ++ (if st.skillsDirExists then [SyncOp.pullSkills] else [])
  if (changedFiles st1).length > 0 then
    let r1 := if f.pushCfg then st1.remote else pushConfigStep st1.cfg st1.remote
    let r2 := if st.wsDirExists then
        (if f.pushWs then r1 else pushWsStep st1.ws r1) else r1
    let r3 := if st.skillsDirExists then
        (if f.pushSk then r2 else pushSkillsStep st1.ws r2) else r2
    ({ st1 with remote := r3, lastSync := some st.now, marker := st.now },
      pullOps ++ [SyncOp.detect] ++ [SyncOp.pushConfig]
        ++ (if st.wsDirExists then [SyncOp.pushWs] else [])
        ++ (if st.skillsDirExists then [SyncOp.pushSkills] else [])
        ++ [SyncOp.writeLastSync, SyncOp.touchMarker])
  else
    (st1, pullOps ++ [SyncOp.detect])

theorem pullPhase_marker (f : CycleFails) (st : SyncState) :
    (pullPhase f st).marker = st.marker := rfl

theorem pullPhase_cfg (f : CycleFails) (st : SyncState) :
    (pullPhase f st).cfg = st.cfg := rfl

theorem pullPhase_remote (f : CycleFails) (st : SyncState) :
    (pullPhase f st).remote = st.remote := rfl

theorem pullPhase_lastSync (f : CycleFails) (st : SyncState) :
    (pullPhase f st).lastSync = st.lastSync := rfl

theorem pullPhase_wsDirExists (f : CycleFails) (st : SyncState) :
    (pullPhase f st).wsDirExists = st.wsDirExists := rfl

theorem pullPhase_skillsDirExists (f : CycleFails) (st : SyncState) :
    (pullPhase f st).skillsDirExists = st.skillsDirExists := rfl

theorem pullPhase_now (f : CycleFails) (st : SyncState) :
    (pullPhase f st).now = st.now := rfl

theorem syncCycle_trace (f : CycleFails) (st : SyncState) :
    (syncCycle f st).2 =
      (if st.wsDirExists then [SyncOp.pullWs] else [])
        ++ (if st.skillsDirExists then [SyncOp.pullSkills] else [])
        ++ [SyncOp.detect]
        ++ (if (changedFiles (pullPhase f st)).length > 0 then
              [SyncOp.pushConfig]
                ++ (if st.wsDirExists then [SyncOp.pushWs] else [])
                ++ (if st.skillsDirExists then [SyncOp.pushSkills] else [])
                ++ [SyncOp.writeLastSync, SyncOp.touchMarker]
            else []) := by
  by_cases hc : (changedFiles (pullPhase f st)).length > 0
  · simp [syncCycle, hc, List.append_assoc]
  · simp [syncCycle, hc]

theorem syncCycle_state_push (f : CycleFails) (st : SyncState)
    (hc : (changedFiles (pullPhase f st)).length > 0) :
    (syncCycle f st).1.marker = st.now ∧
    (syncCycle f st).1.lastSync = some st.now := by
  simp [syncCycle, hc]

theorem syncCycle_state_skip (f : CycleFails) (st : SyncState)
    (hc : ¬ (changedFiles (pullPhase f st)).length > 0) :
    (syncCycle f st).1 = pullPhase f st := by
  simp [syncCycle, hc]

/-- C6: a sync cycle whose ChangeSet is empty performs zero PushMirror
invocations, does not advance the SyncMarker, does not write the
LastSyncRecord, and its trace ends at detection, returning to the idle
sleep. -/
theorem claim_C6_empty_changeset (f : CycleFails) (st : SyncState)
    (h : changedFiles (pullPhase f st) = []) :
    (syncCycle f st).1.marker = st.marker ∧
    (syncCycle f st).1.lastSync = st.lastSync ∧
    (syncCycle f st).1.remote = st.remote ∧
    SyncOp.pushConfig ∉ (syncCycle f st).2 ∧
    SyncOp.pushWs ∉ (syncCycle f st).2 ∧
    SyncOp.pushSkills ∉ (syncCycle f st).2 ∧
    SyncOp.writeLastSync ∉ (syncCycle f st).2 ∧
    SyncOp.touchMarker ∉ (syncCycle f st).2 ∧
    (syncCycle f st).2 = (if st.wsDirExists then [SyncOp.pullWs] else [])
      ++ (if st.skillsDirExists then [SyncOp.pullSkills] else [])
      ++ [SyncOp.detect] := by
  have hc : ¬ (changedFiles (pullPhase f st)).length > 0 := by rw [h]; simp
  have hst := syncCycle_state_skip f st hc
  have htr := syncCycle_trace f st
  rw [if_neg hc, List.append_nil] at htr
  refine ⟨?_, ?_, ?_, ?_, ?_, ?_, ?_, ?_, by rw [htr, List.append_assoc]⟩
  · rw [hst, pullPhase_marker]
  · rw [hst, pullPhase_lastSync]
  · rw [hst, pullPhase_remote]
  all_goals
    rw [htr]
    by_cases hw : st.wsDirExists = true <;> by_cases hs : st.skillsDirExists = true <;>
      simp [hw, hs]

/-- The state of the C6 witness: nothing changed anywhere. -/
def cexEmpty : SyncState :=
  { marker := 0, cfg := [], ws := [], wsDirExists := false,
    skillsDirExists := false, remote := [], lastSync := none, now := 5 }

theorem claim_C6_empty_changeset_witness :
    changedFiles (pullPhase cycleNoFail cexEmpty) = [] ∧
    ((syncCycle cycleNoFail cexEmpty).1.marker = cexEmpty.marker ∧
      (syncCycle cycleNoFail cexEmpty).1.lastSync = cexEmpty.lastSync ∧
      (syncCycle cycleNoFail cexEmpty).1.remote = cexEmpty.remote ∧
      SyncOp.pushConfig ∉ (syncCycle cycleNoFail cexEmpty).2 ∧
      SyncOp.pushWs ∉ (syncCycle cycleNoFail cexEmpty).2 ∧
      SyncOp.pushSkills ∉ (syncCycle cycleNoFail cexEmpty).2 ∧
      SyncOp.writeLastSync ∉ (syncCycle cycleNoFail cexEmpty).2 ∧
      SyncOp.touchMarker ∉ (syncCycle cycleNoFail cexEmpty).2 ∧
      (syncCycle cycleNoFail cexEmpty).2
        = (if cexEmpty.wsDirExists then [SyncOp.pullWs] else [])
          ++ (if cexEmpty.skillsDirExists then [SyncOp.pullSkills] else [])
          ++ [SyncOp.detect]) :=
  ⟨by decide, claim_C6_empty_changeset cycleNoFail cexEmpty (by decide)⟩

/-- Phase rank of a sync operation inside one cycle: pulls, then
detection, then the three mirrors in their fixed order, then the
last-sync write, then the marker touch. -/
def opRank : SyncOp → Nat
  | .pullWs => 0
  | .pullSkills => 0
  | .detect => 1
  | .pushConfig => 2
  | .pushWs => 3
  | .pushSkills => 4
  | .writeLastSync => 5
  | .touchMarker => 6

/-- C7: within every cycle the attempted operations are ordered by phase
(pull before detect before the mirrors, mirrors in the fixed order config
root, workspace, skills, then the record and marker writes); detection
always happens; and whenever a push runs — for any combination of
individual mirror failures — the SyncMarker and LastSyncRecord are both
advanced and the workspace/skills mirrors run exactly when their
directories exist. -/
theorem claim_C7_cycle_order (f : CycleFails) (st : SyncState) :
    List.Chain' (fun a b => opRank a ≤ opRank b) (syncCycle f st).2 ∧
    SyncOp.detect ∈ (syncCycle f st).2 ∧
    (SyncOp.pushConfig ∈ (syncCycle f st).2 →
      (syncCycle f st).1.marker = st.now ∧
      (syncCycle f st).1.lastSync = some st.now ∧
      SyncOp.writeLastSync ∈ (syncCycle f st).2 ∧
      SyncOp.touchMarker ∈ (syncCycle f st).2) ∧
    (SyncOp.pushConfig ∈ (syncCycle f st).2 →
      ((SyncOp.pushWs ∈ (syncCycle f st).2 ↔ st.wsDirExists = true) ∧
        (SyncOp.pushSkills ∈ (syncCycle f st).2 ↔ st.skillsDirExists = true))) := by
  have htr := syncCycle_trace f st
  by_cases hc : (changedFiles (pullPhase f st)).length > 0
  · have hmk := syncCycle_state_push f st hc
    rw [if_pos hc] at htr
    refine ⟨?_, ?_, fun _ => ⟨hmk.1, hmk.2, ?_, ?_⟩, fun _ => ⟨?_, ?_⟩⟩ <;>
      rw [htr] <;>
      by_cases hw : st.wsDirExists = true <;> by_cases hs : st.skillsDirExists = true <;>
        simp [hw, hs] <;> decide
  · rw [if_neg hc, List.append_nil] at htr
    refine ⟨?_, ?_, fun hmem => ?_, fun hmem => ?_⟩
    · rw [htr]
      by_cases hw : st.wsDirExists = true <;> by_cases hs : st.skillsDirExists = true <;>
        simp [hw, hs] <;> decide
    · rw [htr]
      by_cases hw : st.wsDirExists = true <;> by_cases hs : st.skillsDirExists = true <;>
        simp [hw, hs]
    · exfalso
      rw [htr] at hmem
      by_cases hw : st.wsDirExists = true <;> by_cases hs : st.skillsDirExists = true <;>
        simp [hw, hs] at hmem
    · exfalso
      rw [htr] at hmem
      by_cases hw : st.wsDirExists = true <;> by_cases hs : st.skillsDirExists = true <;>
        simp [hw, hs] at hmem

/-- A state in which only one workspace file (outside the skills subtree)
changed, both optional directories exist, and nothing changed in the
config tree or skills subtree. -/
def cexPush : SyncState :=
  { marker := 10, cfg := [], ws := [(["notes.md"], ⟨20, "x"⟩)],
    wsDirExists := true, skillsDirExists := true, remote := [],
    lastSync := none, now := 30 }

theorem claim_C7_cycle_order_witness :
    List.Chain' (fun a b => opRank a ≤ opRank b) (syncCycle cycleNoFail cexPush).2 ∧
    SyncOp.detect ∈ (syncCycle cycleNoFail cexPush).2 ∧
    ((syncCycle cycleNoFail cexPush).1.marker = cexPush.now ∧
      (syncCycle cycleNoFail cexPush).1.lastSync = some cexPush.now ∧
      SyncOp.writeLastSync ∈ (syncCycle cycleNoFail cexPush).2 ∧
      SyncOp.touchMarker ∈ (syncCycle cycleNoFail cexPush).2) ∧
    ((SyncOp.pushWs ∈ (syncCycle cycleNoFail cexPush).2 ↔ cexPush.wsDirExists = true) ∧
      (SyncOp.pushSkills ∈ (syncCycle cycleNoFail cexPush).2 ↔
        cexPush.skillsDirExists = true)) :=
  ⟨(claim_C7_cycle_order cycleNoFail cexPush).1,
   (claim_C7_cycle_order cycleNoFail cexPush).2.1,
   (claim_C7_cycle_order cycleNoFail cexPush).2.2.1 (by decide),
   (claim_C7_cycle_order cycleNoFail cexPush).2.2.2 (by decide)⟩

/-- The per-tree ChangeSet of the skills tree, as the claim speaks of it:
the changed files under the `skills` subtree of the workspace. -/
def changedSkillsFiles (marker : Nat) (ws : FTree) : List FPath :=
  ((subtreeOf ["skills"] ws).filter (fun e => decide (marker < e.2.mtime))).map Prod.fst

/-- C4 counterexample: in `cexPush` the config tree's ChangeSet and the
skills tree's ChangeSet are both empty (only a workspace file changed),
yet the cycle mirrors the config root AND the skills tree: the script
gates all three mirrors on the single combined change count, with no
per-tree gating. -/
theorem claim_C4_counterexample :
    changedConfigFiles cexPush.marker (pullPhase cycleNoFail cexPush).cfg = [] ∧
    changedSkillsFiles cexPush.marker (pullPhase cycleNoFail cexPush).ws = [] ∧
    SyncOp.pushConfig ∈ (syncCycle cycleNoFail cexPush).2 ∧
    SyncOp.pushSkills ∈ (syncCycle cycleNoFail cexPush).2 := by decide

/-- C4 (amended): a push is gated only by the combined ChangeSet (config
find plus workspace find): when it is non-empty the config root is always
mirrored and the workspace and skills trees are mirrored whenever their
directories exist, regardless of their per-tree ChangeSets; when it is
empty nothing is mirrored. -/
theorem claim_C4_amended (f : CycleFails) (st : SyncState) :
    (SyncOp.pushConfig ∈ (syncCycle f st).2 ↔ changedFiles (pullPhase f st) ≠ []) ∧
    (SyncOp.pushWs ∈ (syncCycle f st).2 ↔
      (changedFiles (pullPhase f st) ≠ [] ∧ st.wsDirExists = true)) ∧
    (SyncOp.pushSkills ∈ (syncCycle f st).2 ↔
      (changedFiles (pullPhase f st) ≠ [] ∧ st.skillsDirExists = true)) := by
  have htr := syncCycle_trace f st
  by_cases hc : (changedFiles (pullPhase f st)).length > 0
  · have hne : changedFiles (pullPhase f st) ≠ [] := by
      intro hnil
      rw [hnil] at hc
      simp at hc
    rw [if_pos hc] at htr
    rw [htr]
    by_cases hw : st.wsDirExists = true <;> by_cases hs : st.skillsDirExists = true <;>
      simp [hw, hs, hne]
  · have hnil : changedFiles (pullPhase f st) = [] := by
      rcases hx : changedFiles (pullPhase f st) with _ | ⟨a, l⟩
      · rfl
      · rw [hx] at hc
        simp at hc
    rw [if_neg hc, List.append_nil] at htr
    rw [htr]
    by_cases hw : st.wsDirExists = true <;> by_cases hs : st.skillsDirExists = true <;>
      simp [hw, hs, hnil]

theorem claim_C4_amended_witness :
    (SyncOp.pushConfig ∈ (syncCycle cycleNoFail cexPush).2 ↔
      changedFiles (pullPhase cycleNoFail cexPush) ≠ []) ∧
    (SyncOp.pushWs ∈ (syncCycle cycleNoFail cexPush).2 ↔
      (changedFiles (pullPhase cycleNoFail cexPush) ≠ [] ∧ cexPush.wsDirExists = true)) ∧
    (SyncOp.pushSkills ∈ (syncCycle cycleNoFail cexPush).2 ↔
      (changedFiles (pullPhase cycleNoFail cexPush) ≠ [] ∧
        cexPush.skillsDirExists = true)) :=
  claim_C4_amended cycleNoFail cexPush

/-- The exclusion set the spec attributes to change detection (version
control metadata, dependency-installation directories, lock/log/temp
files).  Definition follows the words of the spec, for comparison with
`changedFiles`. -/
def specDetectExcl (p : FPath) : Bool :=
  p.dropLast.contains ".git" || p.dropLast.contains "node_modules"
    || lastEndsWith ".lock" p || lastEndsWith ".log" p || lastEndsWith ".tmp" p

/-- The ChangeSet as the spec describes it: every file under the managed
trees strictly newer than the marker, minus `specDetectExcl`.  Definition
follows the words of the spec, for comparison with `changedFiles`. -/
def specChangeSet (st : SyncState) : List FPath :=
  (st.cfg.filter (fun e => decide (st.marker < e.2.mtime) && !specDetectExcl e.1)).map
      Prod.fst
    ++ (if st.wsDirExists then
          (st.ws.filter
            (fun e => decide (st.marker < e.2.mtime) && !specDetectExcl e.1)).map Prod.fst
        else [])

/-- A state with one stale lock file in the config tree, newer than the
marker. -/
def cexLock : SyncState :=
  { marker := 10, cfg := [(["stale.lock"], ⟨20, "l"⟩)], ws := [],
    wsDirExists := false, skillsDirExists := false, remote := [],
    lastSync := none, now := 30 }

/-- C5 counterexample: the `find`-based detection has no lock/log/tmp
exclusion (and no exclusions at all on the config tree), so a changed
`.lock` file IS in the computed ChangeSet although the claim's exclusion
set rules it out. -/
theorem claim_C5_counterexample :
    changedFiles cexLock = [["stale.lock"]] ∧
    specChangeSet cexLock = [] ∧
    lastEndsWith ".lock" ["stale.lock"] = true := by decide

/-- C5 (amended): the ChangeSet contains exactly the config-tree files
whose modification time is strictly later than the marker (with no
exclusions at all) plus, when the workspace directory exists, the
workspace-tree files strictly newer than the marker that do not lie below
a `node_modules` or `.git` component; lock/log/temp files are not
excluded from detection (they are excluded only from the config-root
mirror). -/
theorem mem_changedConfigFiles (marker : Nat) (cfg : FTree) (p : FPath) :
    p ∈ changedConfigFiles marker cfg ↔ ∃ f, (p, f) ∈ cfg ∧ marker < f.mtime := by
  unfold changedConfigFiles
  rw [List.mem_map]
  constructor
  · rintro ⟨⟨q, v⟩, hq, rfl⟩
    rw [List.mem_filter] at hq
    exact ⟨v, hq.1, by simpa using hq.2⟩
  · rintro ⟨f, hf, hlt⟩
    exact ⟨(p, f), List.mem_filter.mpr ⟨hf, by simpa using hlt⟩, rfl⟩

theorem mem_changedWsFiles (marker : Nat) (ws : FTree) (p : FPath) :
    p ∈ changedWsFiles marker ws ↔
      ∃ f, (p, f) ∈ ws ∧ marker < f.mtime ∧ wsFindExcl p = false := by
  unfold changedWsFiles
  rw [List.mem_map]
  constructor
  · rintro ⟨⟨q, v⟩, hq, rfl⟩
    rw [List.mem_filter] at hq
    have h2 := hq.2
    simp only [Bool.and_eq_true, decide_eq_true_eq, Bool.not_eq_true'] at h2
    exact ⟨v, hq.1, h2.1, h2.2⟩
  · rintro ⟨f, hf, hlt, hex⟩
    refine ⟨(p, f), List.mem_filter.mpr ⟨hf, ?_⟩, rfl⟩
    simp only [Bool.and_eq_true, decide_eq_true_eq, Bool.not_eq_true']
    exact ⟨hlt, hex⟩

theorem claim_C5_amended (st : SyncState) (p : FPath) :
    p ∈ changedFiles st ↔
      ((∃ f, (p, f) ∈ st.cfg ∧ st.marker < f.mtime) ∨
        (st.wsDirExists = true ∧
          ∃ f, (p, f) ∈ st.ws ∧ st.marker < f.mtime ∧ wsFindExcl p = false)) := by
  unfold changedFiles
  rw [List.mem_append, mem_changedConfigFiles]
  by_cases hw : st.wsDirExists = true
  · rw [if_pos hw, mem_changedWsFiles]
    constructor
    · rintro (h | h)
      · exact Or.inl h
      · exact Or.inr ⟨hw, h⟩
    · rintro (h | ⟨_, h⟩)
      · exact Or.inl h
      · exact Or.inr h
  · rw [if_neg hw]
    constructor
    · rintro (h | h)
      · exact Or.inl h
      · exact absurd h (List.not_mem_nil p)
    · rintro (h | ⟨hcontr, _⟩)
      · exact Or.inl h
      · exact absurd hcontr hw

theorem claim_C5_amended_witness :
    (["stale.lock"] : FPath) ∈ changedFiles cexLock :=
  (claim_C5_amended cexLock ["stale.lock"]).mpr
    (Or.inl ⟨⟨20, "l"⟩, by decide, by decide⟩)

theorem pullWsStep_lookup_excl (remote ws : FTree) (p : FPath)
    (hex : wsPullExcl p = true) :
    (pullWsStep remote ws).lookup p = ws.lookup p := by
  unfold pullWsStep
  simpa using lookup_rcloneCopyInto_excluded [] wsPullExcl
    (subtreeOf ["workspace"] remote) ws p hex

theorem pullWsStep_lookup_hit (remote ws : FTree) (p : FPath) (v : FileInfo)
    (hex : wsPullExcl p = false)
    (hs : (subtreeOf ["workspace"] remote).lookup p = some v) :
    (pullWsStep remote ws).lookup p = some v := by
  unfold pullWsStep
  simpa using lookup_rcloneCopyInto_src [] wsPullExcl
    (subtreeOf ["workspace"] remote) ws p v hs hex

theorem pullWsStep_lookup_miss (remote ws : FTree) (p : FPath)
    (hs : (subtreeOf ["workspace"] remote).lookup p = none) :
    (pullWsStep remote ws).lookup p = ws.lookup p := by
  unfold pullWsStep
  simpa using lookup_rcloneCopyInto_absent [] wsPullExcl
    (subtreeOf ["workspace"] remote) ws p hs

theorem pullSkillsStep_lookup_hit (remote ws : FTree) (t : FPath) (v : FileInfo)
    (hs : (subtreeOf ["skills"] remote).lookup t = some v) :
    (pullSkillsStep remote ws).lookup ("skills" :: t) = some v := by
  unfold pullSkillsStep
  simpa using lookup_rcloneCopyInto_src ["skills"] (fun _ => false)
    (subtreeOf ["skills"] remote) ws t v hs rfl

theorem pullSkillsStep_lookup_miss (remote ws : FTree) (t : FPath)
    (hs : (subtreeOf ["skills"] remote).lookup t = none) :
    (pullSkillsStep remote ws).lookup ("skills" :: t) = ws.lookup ("skills" :: t) := by
  unfold pullSkillsStep
  simpa using lookup_rcloneCopyInto_absent ["skills"] (fun _ => false)
    (subtreeOf ["skills"] remote) ws t hs

theorem pullSkillsStep_lookup_other (remote ws : FTree) (p : FPath)
    (hp : ¬ p.head? = some "skills") :
    (pullSkillsStep remote ws).lookup p = ws.lookup p := by
  unfold pullSkillsStep
  apply lookup_rcloneCopyInto_outside
  rintro ⟨t, ht⟩
  apply hp
  rw [← ht]
  rfl

theorem pullPhase_ws (f : CycleFails) (st : SyncState) :
    (pullPhase f st).ws =
      (if st.skillsDirExists && !f.pullSk then
        pullSkillsStep st.remote
          (if st.wsDirExists && !f.pullWs then pullWsStep st.remote st.ws else st.ws)
      else (if st.wsDirExists && !f.pullWs then pullWsStep st.remote st.ws
            else st.ws)) := by
  by_cases hs : (st.skillsDirExists && !f.pullSk) = true <;>
    by_cases hw : (st.wsDirExists && !f.pullWs) = true <;>
      simp [pullPhase, hs, hw]

/-- The path lies under the local skills dir: its head component is
`skills`. -/
def isSkillsSub (p : FPath) : Bool := decide (p.head? = some "skills")

theorem isSkillsSub_iff (p : FPath) : isSkillsSub p = true ↔ ∃ t, p = "skills" :: t := by
  unfold isSkillsSub
  rw [decide_eq_true_eq]
  cases p with
  | nil => simp
  | cons a q =>
    simp only [List.head?_cons, Option.some.injEq, List.cons.injEq]
    constructor
    · intro h
      exact ⟨q, h, rfl⟩
    · rintro ⟨t, h1, h2⟩
      exact h1

theorem lookup_subtreeOf_nil (pre : FPath) (t : FTree) :
    (subtreeOf pre t).lookup [] = none := by
  induction t with
  | nil => simp [subtreeOf, FTree.lookup]
  | cons e rest ih =>
    rcases e with ⟨k, v⟩
    by_cases hu : underPre pre k = true
    · have hk : ¬ (k.drop pre.length = []) := by
        unfold underPre at hu
        simp only [Bool.and_eq_true, decide_eq_true_eq] at hu
        intro hnil
        have hlen := List.length_drop pre.length k
        rw [hnil] at hlen
        simp at hlen
        omega
      simp only [subtreeOf, List.filterMap_cons, hu, if_true]
      simp only [FTree.lookup, hk, if_false]
      exact ih
    · simp only [Bool.not_eq_true] at hu
      simp only [subtreeOf, List.filterMap_cons, hu, Bool.false_eq_true, if_false]
      exact ih

/-- The value the workspace-pull step leaves at one local path, as a
function of the previous value there: pulled from the remote workspace
subtree when the copy is active, the path is not excluded and the remote
has it; otherwise unchanged. -/
def wsPullVal (f : CycleFails) (remote : FTree) (wsDir : Bool)
    (old : Option FileInfo) (p : FPath) : Option FileInfo :=
  if wsDir && !f.pullWs && !wsPullExcl p then
    ((subtreeOf ["workspace"] remote).lookup p).elim old some
  else old

/-- The value the whole pull phase leaves at one local workspace path, as
a function of the previous value there (the skills copy runs second and
shadows the workspace copy under `skills/`). -/
def pullLookupModel (f : CycleFails) (remote : FTree) (wsDir skDir : Bool)
    (old : Option FileInfo) (p : FPath) : Option FileInfo :=
  if skDir && !f.pullSk && isSkillsSub p then
    ((subtreeOf ["skills"] remote).lookup p.tail).elim
      (wsPullVal f remote wsDir old p) some
  else wsPullVal f remote wsDir old p

theorem ws1_lookup_model (f : CycleFails) (st : SyncState) (p : FPath) :
    (if st.wsDirExists && !f.pullWs then pullWsStep st.remote st.ws
      else st.ws).lookup p
      = wsPullVal f st.remote st.wsDirExists (st.ws.lookup p) p := by
  by_cases hw : (st.wsDirExists && !f.pullWs) = true
  · by_cases hex : wsPullExcl p = true
    · rw [if_pos hw, pullWsStep_lookup_excl _ _ _ hex]
      simp [wsPullVal, hex]
    · have hex' : wsPullExcl p = false := by simpa using hex
      cases hsub : (subtreeOf ["workspace"] st.remote).lookup p with
      | some v =>
        rw [if_pos hw, pullWsStep_lookup_hit _ _ _ _ hex' hsub]
        simp [wsPullVal, hw, hex', hsub]
      | none =>
        rw [if_pos hw, pullWsStep_lookup_miss _ _ _ hsub]
        simp [wsPullVal, hw, hex', hsub]
  · have hw' : (st.wsDirExists && !f.pullWs) = false := by simpa using hw
    rw [if_neg hw]
    simp [wsPullVal, hw']

theorem pullPhase_ws_lookup (f : CycleFails) (st : SyncState) (p : FPath) :
    (pullPhase f st).ws.lookup p =
      pullLookupModel f st.remote st.wsDirExists st.skillsDirExists
        (st.ws.lookup p) p := by
  rw [pullPhase_ws]
  have hws1 := ws1_lookup_model f st p
  by_cases hsk : (st.skillsDirExists && !f.pullSk) = true
  · rw [if_pos hsk]
    by_cases hform : isSkillsSub p = true
    · obtain ⟨t, rfl⟩ := (isSkillsSub_iff p).mp hform
      cases hsub : (subtreeOf ["skills"] st.remote).lookup t with
      | some v =>
        rw [pullSkillsStep_lookup_hit _ _ _ _ hsub]
        unfold pullLookupModel
        rw [if_pos (by simp [hsk, hform])]
        rw [show ("skills" :: t : FPath).tail = t from rfl, hsub]
        rfl
      | none =>
        rw [pullSkillsStep_lookup_miss _ _ _ hsub, hws1]
        unfold pullLookupModel
        rw [if_pos (by simp [hsk, hform])]
        rw [show ("skills" :: t : FPath).tail = t from rfl, hsub]
        rfl
    · have hform' : isSkillsSub p = false := by simpa using hform
      have hhead : ¬ p.head? = some "skills" := by
        intro hh
        exact hform (decide_eq_true hh)
      rw [pullSkillsStep_lookup_other _ _ _ hhead, hws1]
      unfold pullLookupModel
      rw [if_neg (by simp [hform'])]
  · have hsk' : (st.skillsDirExists && !f.pullSk) = false := by simpa using hsk
    rw [if_neg hsk, hws1]
    unfold pullLookupModel
    rw [if_neg (by simp [hsk'])]

theorem wsPullVal_miss (f : CycleFails) (remote : FTree) (wsDir : Bool)
    (old : Option FileInfo) (p : FPath)
    (h : (subtreeOf ["workspace"] remote).lookup p = none) :
    wsPullVal f remote wsDir old p = old := by
  unfold wsPullVal
  by_cases hc : (wsDir && !f.pullWs && !wsPullExcl p) = true
  · rw [if_pos hc, h]
    rfl
  · rw [if_neg hc]

theorem wsPullVal_idem (f : CycleFails) (remote : FTree) (wsDir : Bool)
    (old : Option FileInfo) (p : FPath) :
    wsPullVal f remote wsDir (wsPullVal f remote wsDir old p) p
      = wsPullVal f remote wsDir old p := by
  unfold wsPullVal
  by_cases hc : (wsDir && !f.pullWs && !wsPullExcl p) = true
  · rw [if_pos hc, if_pos hc]
    cases hs : (subtreeOf ["workspace"] remote).lookup p with
    | some v => rfl
    | none => rfl
  · rw [if_neg hc, if_neg hc]

theorem pullLookupModel_idem (f : CycleFails) (remote : FTree) (wsDir skDir : Bool)
    (old : Option FileInfo) (p : FPath) :
    pullLookupModel f remote wsDir skDir
        (pullLookupModel f remote wsDir skDir old p) p
      = pullLookupModel f remote wsDir skDir old p := by
  unfold pullLookupModel
  by_cases hc : (skDir && !f.pullSk && isSkillsSub p) = true
  · rw [if_pos hc, if_pos hc]
    cases hs : (subtreeOf ["skills"] remote).lookup p.tail with
    | some v => rfl
    | none =>
      simp only [Option.elim]
      exact wsPullVal_idem f remote wsDir old p
  · rw [if_neg hc, if_neg hc]
    exact wsPullVal_idem f remote wsDir old p

/-- C8: the pull phase never removes a local file — a pre-existing local
workspace file that is absent from the remote workspace subtree (and,
when it lies under `skills/`, absent from the remote skills subtree) is
left exactly as it was — and pulling twice against the same remote leaves
the local workspace tree identical to pulling once. -/
theorem claim_C8_pull_additive :
    (∀ (f : CycleFails) (st : SyncState) (p : FPath),
      (subtreeOf ["workspace"] st.remote).lookup p = none →
      (∀ t, p = "skills" :: t → (subtreeOf ["skills"] st.remote).lookup t = none) →
      (pullPhase f st).ws.lookup p = st.ws.lookup p) ∧
    (∀ (f : CycleFails) (st : SyncState) (p : FPath),
      (pullPhase f (pullPhase f st)).ws.lookup p = (pullPhase f st).ws.lookup p) := by
  constructor
  · intro f st p hws hsk
    rw [pullPhase_ws_lookup]
    unfold pullLookupModel
    by_cases hc : (st.skillsDirExists && !f.pullSk && isSkillsSub p) = true
    · have hform : isSkillsSub p = true := by
        rcases Bool.and_eq_true_iff.mp hc with ⟨h1, h2⟩
        exact h2
      obtain ⟨t, rfl⟩ := (isSkillsSub_iff p).mp hform
      rw [if_pos hc, show ("skills" :: t : FPath).tail = t from rfl, hsk t rfl]
      simp only [Option.elim]
      exact wsPullVal_miss f st.remote st.wsDirExists _ _ hws
    · rw [if_neg hc]
      exact wsPullVal_miss f st.remote st.wsDirExists _ _ hws
  · intro f st p
    rw [pullPhase_ws_lookup f (pullPhase f st) p, pullPhase_ws_lookup f st p,
      pullPhase_remote, pullPhase_wsDirExists, pullPhase_skillsDirExists]
    exact pullLookupModel_idem f st.remote st.wsDirExists st.skillsDirExists
      (st.ws.lookup p) p

/-- A state whose remote stores nothing but whose local workspace has one
file, for exercising the pull claims. -/
def cexPull : SyncState :=
  { marker := 0, cfg := [], ws := [(["keep.md"], ⟨3, "local"⟩)],
    wsDirExists := true, skillsDirExists := true,
    remote := [(["workspace", "new.md"], ⟨7, "remote"⟩)], lastSync := none, now := 9 }

theorem claim_C8_pull_additive_witness :
    (subtreeOf ["workspace"] cexPull.remote).lookup ["keep.md"] = none ∧
    (pullPhase cycleNoFail cexPull).ws.lookup ["keep.md"]
      = cexPull.ws.lookup ["keep.md"] ∧
    (pullPhase cycleNoFail (pullPhase cycleNoFail cexPull)).ws.lookup ["new.md"]
      = (pullPhase cycleNoFail cexPull).ws.lookup ["new.md"] :=
  ⟨by decide,
   claim_C8_pull_additive.1 cycleNoFail cexPull ["keep.md"] (by decide)
     (fun t ht => by simp at ht),
   claim_C8_pull_additive.2 cycleNoFail cexPull ["new.md"]⟩

theorem configPushExcl_ws (r : FPath) (hr : r ≠ []) :
    configPushExcl ("workspace" :: r) = true := by
  rcases r with _ | ⟨b, q⟩
  · exact absurd rfl hr
  · unfold configPushExcl
    have hcon : (("workspace" :: b :: q : FPath).dropLast).contains "workspace" = true := by
      simp [List.dropLast]
    simp [hcon]

theorem configPushExcl_sk (r : FPath) (hr : r ≠ []) :
    configPushExcl ("skills" :: r) = true := by
  rcases r with _ | ⟨b, q⟩
  · exact absurd rfl hr
  · unfold configPushExcl
    have hcon : (("skills" :: b :: q : FPath).dropLast).contains "skills" = true := by
      simp [List.dropLast]
    simp [hcon]

/-- C9: the config-root mirror leaves every remote object under the
`workspace/` and `skills/` prefixes exactly as it was (never adds,
replaces or deletes one), and leaves the remote state unchanged at every
lock/log/tmp path — in particular a local lock/log/tmp file is never
propagated to the remote. -/
theorem claim_C9_config_mirror_frame (cfg remote : FTree) :
    (∀ r : FPath, r ≠ [] →
      (pushConfigStep cfg remote).lookup ("workspace" :: r)
        = remote.lookup ("workspace" :: r)) ∧
    (∀ r : FPath, r ≠ [] →
      (pushConfigStep cfg remote).lookup ("skills" :: r)
        = remote.lookup ("skills" :: r)) ∧
    (∀ p : FPath,
      (lastEndsWith ".lock" p || lastEndsWith ".log" p || lastEndsWith ".tmp" p) = true →
      (pushConfigStep cfg remote).lookup p = remote.lookup p) := by
  refine ⟨?_, ?_, ?_⟩
  · intro r hr
    unfold pushConfigStep
    simpa using lookup_rcloneSyncAt_excluded [] configPushExcl cfg remote
      ("workspace" :: r) (configPushExcl_ws r hr)
  · intro r hr
    unfold pushConfigStep
    simpa using lookup_rcloneSyncAt_excluded [] configPushExcl cfg remote
      ("skills" :: r) (configPushExcl_sk r hr)
  · intro p hp
    have hex : configPushExcl p = true := by
      unfold configPushExcl
      simp only [Bool.or_eq_true] at hp ⊢
      rcases hp with (h | h) | h
      · exact Or.inl (Or.inl (Or.inl (Or.inl (Or.inl h))))
      · exact Or.inl (Or.inl (Or.inl (Or.inl (Or.inr h))))
      · exact Or.inl (Or.inl (Or.inl (Or.inr h)))
    unfold pushConfigStep
    simpa using lookup_rcloneSyncAt_excluded [] configPushExcl cfg remote p hex

/-- A local config tree holding a nested workspace file and a lock file,
neither of which the config mirror may propagate. -/
def cexCfg : FTree := [(["workspace", "evil.md"], ⟨9, "y"⟩), (["cfg.lock"], ⟨9, "z"⟩)]

/-- A remote store with one object under the workspace prefix. -/
def cexRemote : FTree := [(["workspace", "a.md"], ⟨1, "x"⟩)]

theorem claim_C9_config_mirror_frame_witness :
    (["a.md"] : FPath) ≠ [] ∧
    (pushConfigStep cexCfg cexRemote).lookup ["workspace", "a.md"]
      = cexRemote.lookup ["workspace", "a.md"] ∧
    (lastEndsWith ".lock" ["cfg.lock"] || lastEndsWith ".log" ["cfg.lock"]
      || lastEndsWith ".tmp" ["cfg.lock"]) = true ∧
    (pushConfigStep cexCfg cexRemote).lookup ["cfg.lock"]
      = cexRemote.lookup ["cfg.lock"] :=
  ⟨by decide,
   (claim_C9_config_mirror_frame cexCfg cexRemote).1 ["a.md"] (by decide),
   by decide,
   (claim_C9_config_mirror_frame cexCfg cexRemote).2.2 ["cfg.lock"] (by decide)⟩

/-!
## Legacy config restore

`start-openclaw.sh` lines 71-77: restore from the legacy `clawdbot/`
prefix (excluding `workspace/**` and `skills/**`), then rename
`clawdbot.json` to `openclaw.json` only if the former exists and the
latter does not.
-/

/-- `--exclude='workspace/**' --exclude='skills/**'` of the config
restores (lines 69 and 73). -/
def restoreExcl (p : FPath) : Bool :=
  p.dropLast.contains "workspace" || p.dropLast.contains "skills"

/-- Line 73: `rclone copy r2:BUCKET/clawdbot/ $CONFIG_DIR/` with the
restore excludes. -/
def legacyCopyPhase (legacy localCfg : FTree) : FTree :=
  rcloneCopyInto [] restoreExcl legacy localCfg

/-- Lines 73-76: the legacy copy followed by the guarded rename
`[ -f clawdbot.json ] && [ ! -f openclaw.json ] && mv`. -/
def legacyConfigRestore (legacy localCfg : FTree) : FTree :=
  let l1 := legacyCopyPhase legacy localCfg
  match l1.lookup ["clawdbot.json"] with
  | some f =>
    match l1.lookup ["openclaw.json"] with
    | some _ => l1
    | none => (l1.removeFile ["clawdbot.json"]).setFile ["openclaw.json"] f
  | none => l1

/-- C10: the copied legacy config is renamed to `openclaw.json` only when
no `openclaw.json` exists after the copy — an existing `openclaw.json` is
left untouched by the rename (and `clawdbot.json` then stays in place);
when `openclaw.json` is absent and `clawdbot.json` present, the rename
installs the legacy content as `openclaw.json` and removes
`clawdbot.json`. -/
theorem claim_C10_rename_guard (legacy localCfg : FTree) :
    (∀ f, (legacyCopyPhase legacy localCfg).lookup ["openclaw.json"] = some f →
      (legacyConfigRestore legacy localCfg).lookup ["openclaw.json"] = some f ∧
      (legacyConfigRestore legacy localCfg).lookup ["clawdbot.json"]
        = (legacyCopyPhase legacy localCfg).lookup ["clawdbot.json"]) ∧
    ((legacyCopyPhase legacy localCfg).lookup ["openclaw.json"] = none →
      ∀ f, (legacyCopyPhase legacy localCfg).lookup ["clawdbot.json"] = some f →
      (legacyConfigRestore legacy localCfg).lookup ["openclaw.json"] = some f ∧
      (legacyConfigRestore legacy localCfg).lookup ["clawdbot.json"] = none) := by
  constructor
  · intro f hoc
    cases hcb : (legacyCopyPhase legacy localCfg).lookup ["clawdbot.json"] with
    | some g =>
      simp only [legacyConfigRestore, hcb, hoc]
      exact ⟨trivial, trivial⟩
    | none =>
      simp only [legacyConfigRestore, hcb]
      exact ⟨hoc, trivial⟩
  · intro hoc f hcb
    simp only [legacyConfigRestore, hcb, hoc]
    constructor
    · rw [FTree.lookup_setFile, if_pos rfl]
    · rw [FTree.lookup_setFile,
        if_neg (by intro hh; simp at hh)]
      rw [FTree.lookup_removeFile, if_pos rfl]

/-- A legacy remote backup holding only `clawdbot.json`. -/
def cexLegacy : FTree := [(["clawdbot.json"], ⟨2, "legacy-config"⟩)]

/-- A local config dir that already has an `openclaw.json`. -/
def cexLocalWithCfg : FTree := [(["openclaw.json"], ⟨4, "current-config"⟩)]

theorem claim_C10_rename_guard_witness :
    (legacyCopyPhase cexLegacy cexLocalWithCfg).lookup ["openclaw.json"]
      = some ⟨4, "current-config"⟩ ∧
    ((legacyConfigRestore cexLegacy cexLocalWithCfg).lookup ["openclaw.json"]
        = some ⟨4, "current-config"⟩ ∧
      (legacyConfigRestore cexLegacy cexLocalWithCfg).lookup ["clawdbot.json"]
        = (legacyCopyPhase cexLegacy cexLocalWithCfg).lookup ["clawdbot.json"]) ∧
    (legacyCopyPhase cexLegacy []).lookup ["openclaw.json"] = none ∧
    (legacyCopyPhase cexLegacy []).lookup ["clawdbot.json"]
      = some ⟨2, "legacy-config"⟩ ∧
    ((legacyConfigRestore cexLegacy []).lookup ["openclaw.json"]
        = some ⟨2, "legacy-config"⟩ ∧
      (legacyConfigRestore cexLegacy []).lookup ["clawdbot.json"] = none) :=
  ⟨by decide,
   (claim_C10_rename_guard cexLegacy cexLocalWithCfg).1 ⟨4, "current-config"⟩ (by decide),
   by decide, by decide,
   (claim_C10_rename_guard cexLegacy []).2 (by decide) ⟨2, "legacy-config"⟩ (by decide)⟩
